import Mathlib

/-!
Verification of the NEXTLEVEL chat client's incremental readout renderer
(`RoboticReadout` in `src/App.tsx`) and its quiz-start state transition.

Strings are modelled as `List Char`.  JavaScript string operations used by the
source (`split`, `trim`, regex tests) are embedded as executable Lean
functions over `List Char`, with the JS whitespace class (`\s`, also the set
trimmed by `String.prototype.trim`) and the JS line-terminator set (which the
regex metacharacter `.` does not match) made explicit.
-/

/-- Characters matched by the JS regex class `\s` (WhiteSpace ∪ LineTerminator),
which is also the set removed by `String.prototype.trim`. -/
def isJsWs (c : Char) : Bool :=
  c == ' ' || c == '\t' || c == '\n' || c == '\r' ||
  c.toNat == 0x0B || c.toNat == 0x0C || c.toNat == 0xA0 || c.toNat == 0x1680 ||
  (0x2000 ≤ c.toNat && c.toNat ≤ 0x200A) || c.toNat == 0x2028 || c.toNat == 0x2029 ||
  c.toNat == 0x202F || c.toNat == 0x205F || c.toNat == 0x3000 || c.toNat == 0xFEFF

/-- JS line terminators: the characters the regex metacharacter `.` does not match. -/
def isLineTerm (c : Char) : Bool :=
  c == '\n' || c == '\r' || c.toNat == 0x2028 || c.toNat == 0x2029

/-- `String.prototype.trim`: drop JS whitespace from both ends. -/
def jsTrim (l : List Char) : List Char :=
  ((l.dropWhile isJsWs).reverse.dropWhile isJsWs).reverse

/-- `String.prototype.split(sep)` for a single-character separator: splits at
every occurrence, keeping empty fields (`"".split` gives `[""]`). -/
def splitOnChar (sep : Char) : List Char → List (List Char)
  | [] => [[]]
  | c :: cs =>
    match splitOnChar sep cs with
    | [] => [[]]
    | r :: rs => if c == sep then [] :: r :: rs else (c :: r) :: rs

/-- `String.prototype.includes(c)` for a single character. -/
def containsChar (c : Char) (l : List Char) : Bool :=
  l.any (fun x => x == c)

/-- Convenience: the character list of a string literal. -/
def chars (s : String) : List Char := s.data

/-- After the first `|` of the row regex: the remaining characters must end in
a final `|`, every character before that final `|` being matchable by `.`
(i.e. not a line terminator). -/
def endCheck : List Char → Bool
  | [] => false
  | [c] => c == '|'
  | c :: c2 :: cs => (!(isLineTerm c)) && endCheck (c2 :: cs)

/-- The test `/^[\s]*\|.*\|[\s]*$/.test(line)` (App.tsx line 88).  Since `|`
is not whitespace, the leading `[\s]*` must consume exactly the maximal
leading whitespace run and the trailing `[\s]*` the maximal trailing run, so
the regex matches iff the JS-trimmed line starts with `|`, ends with a second
`|`, and the characters between the two pipes are all matchable by `.`. -/
def pipeRowRegexTest (line : List Char) : Bool :=
  match jsTrim line with
  | '|' :: rest => endCheck rest
  | _ => false

/-- `isTableRow` (App.tsx line 88): regex test plus `line.includes('|')`. -/
def isTableRow (line : List Char) : Bool :=
  pipeRowRegexTest line && containsChar '|' line

/-- A character of the JS class `[| \-:]` (App.tsx line 90): pipe, plain
space, dash or colon. -/
def isSepClassChar (c : Char) : Bool :=
  c == '|' || c == ' ' || c == '-' || c == ':'

/-- `line.trim().match(/^[| \-:]+$/)` is non-null (App.tsx line 90): the
trimmed line is non-empty and consists only of `|`, space, `-`, `:`. -/
def isSeparatorRow (line : List Char) : Bool :=
  !(jsTrim line).isEmpty && (jsTrim line).all isSepClassChar

/-- `line.split('|').filter((_, i, arr) => i > 0 && i < arr.length - 1).map(c => c.trim())`
(App.tsx line 91): split on pipes, drop the first and last fields, trim each. -/
def rowCells (line : List Char) : List (List Char) :=
  (((splitOnChar '|' line).drop 1).dropLast).map jsTrim

/-- A content block of the readout: `{ type: 'text' | 'table', content }`. -/
inductive Block
  | text (content : List Char)
  | table (rows : List (List (List Char)))
deriving DecidableEq

/-- The body of `lines.forEach` in the segmentation effect (App.tsx lines
87-100), acting on the state `(blocks, currentTable)`. -/
def segStep (st : List Block × List (List (List Char))) (line : List Char) :
    List Block × List (List (List Char)) :=
  if isTableRow line then
    if isSeparatorRow line then st
    else if (rowCells line).length > 0 then (st.1, st.2 ++ [rowCells line]) else st
  else
    let flushed : List Block × List (List (List Char)) :=
      if st.2.length > 0 then (st.1 ++ [Block.table st.2], []) else st
    if jsTrim line = [] then flushed else (flushed.1 ++ [Block.text line], flushed.2)

/-- The final flush of line 102: `if (currentTable.length > 0) blocks.push(...)`. -/
def flushTable (st : List Block × List (List (List Char))) : List Block :=
  if st.2.length > 0 then st.1 ++ [Block.table st.2] else st.1

/-- The whole segmentation effect (App.tsx lines 82-105): split the text on
newlines, fold the per-line step, then flush any trailing table. -/
def segmentBlocks (text : List Char) : List Block :=
  flushTable ((splitOnChar '\n' text).foldl segStep ([], []))

/-- What a single source line contributes to the segmented output: either a
raw text line or one table row's trimmed cells. -/
inductive LineData
  | textLine (l : List Char)
  | rowLine (cells : List (List Char))
deriving DecidableEq

/-- The contribution of one line, read off the per-line branch structure of
the segmenter: separator rows and blank non-table lines contribute nothing. -/
def lineData (line : List Char) : Option LineData :=
  if isTableRow line then
    if isSeparatorRow line then none
    else if (rowCells line).length > 0 then some (LineData.rowLine (rowCells line)) else none
  else if jsTrim line = [] then none else some (LineData.textLine line)

/-- The data carried by one block, in source order. -/
def blockData : Block → List LineData
  | Block.text l => [LineData.textLine l]
  | Block.table rows => rows.map LineData.rowLine

/-- Concatenation, in source order, of the data of a block sequence. -/
def blocksData : List Block → List LineData
  | [] => []
  | b :: bs => blockData b ++ blocksData bs

/-- The claimed row shape of the frozen table-row claim: begins and ends with
a pipe (ignoring surrounding whitespace) and contains a further pipe strictly
between those two. -/
def hasInteriorPipe (line : List Char) : Bool :=
  match jsTrim line with
  | [] => false
  | _ :: rest => (rest.dropLast).any (fun c => c == '|')

/-- Begins and ends with a pipe character, ignoring surrounding whitespace. -/
def beginsEndsPipe (line : List Char) : Bool :=
  (jsTrim line).head? == some '|' && (jsTrim line).getLast? == some '|'

/-- The amended row shape: after trimming surrounding whitespace the line
starts with a pipe, ends with a distinct second pipe, and no line terminator
stands between the two pipes. -/
def amendedRowShape (line : List Char) : Bool :=
  ((jsTrim line).head? == some '|') && ((jsTrim line).getLast? == some '|') &&
  (2 ≤ (jsTrim line).length) &&
  (((jsTrim line).drop 1).dropLast).all (fun c => !(isLineTerm c))

/-- A character that is a pipe, dash, colon, or whitespace (the composition
alleged by the frozen separator-row claim). -/
def isSepOrWsChar (c : Char) : Bool :=
  c == '|' || c == '-' || c == ':' || isJsWs c

/-- One reveal tick (App.tsx lines 107-113): the effect schedules a timer
exactly when `visibleBlockCount < contentBlocks.length`, and the timer runs
`setVisibleBlockCount(v => v + 1)`; with no timer scheduled the count stays. -/
def revealTick (blocks : List Block) (v : Nat) : Nat :=
  if v < blocks.length then v + 1 else v

/-- `k` successive reveal ticks from visible count `v`. -/
def revealTicks (blocks : List Block) : Nat → Nat → Nat
  | 0, v => v
  | Nat.succ k, v => revealTicks blocks k (revealTick blocks v)

/-- Whether the reveal effect schedules a timer in state `v` (App.tsx line 108). -/
def timerScheduled (blocks : List Block) (v : Nat) : Bool :=
  decide (v < blocks.length)

/-- The reveal state of `RoboticReadout`: `contentBlocks` and `visibleBlockCount`. -/
structure RevealState where
  blocks : List Block
  visibleCount : Nat
deriving DecidableEq

/-- The operations that touch the reveal state: a rebuild from (possibly new)
source text (App.tsx lines 82-105: `setContentBlocks(blocks); setVisibleBlockCount(0)`)
and a reveal timer tick. -/
inductive RevealOp
  | rebuild (text : List Char)
  | tick
deriving DecidableEq

/-- Apply one reveal-state operation. -/
def applyRevealOp (st : RevealState) : RevealOp → RevealState
  | RevealOp.rebuild t => { blocks := segmentBlocks t, visibleCount := 0 }
  | RevealOp.tick => { st with visibleCount := revealTick st.blocks st.visibleCount }

/-- The state at mount: `useState([])` and `useState(0)` (App.tsx lines 79-80). -/
def mountRevealState : RevealState := { blocks := [], visibleCount := 0 }

/-- The reveal-state invariant claimed by the spec. -/
def revealInv (st : RevealState) : Prop :=
  st.visibleCount ≤ st.blocks.length

/-- A rendered fragment of one text line (`renderTextWithMath`, App.tsx lines
115-130): a plain span, a typeset math span (kept with its math source), or
the visually flagged raw fallback emitted when typesetting throws. -/
inductive Fragment
  | plain (s : List Char)
  | math (src : List Char) (html : List Char)
  | flagged (s : List Char)
deriving DecidableEq

/-- `part.startsWith('$') && part.endsWith('$')` (App.tsx line 119). -/
def isMathSpan (part : List Char) : Bool :=
  part.head? == some '$' && part.getLast? == some '$'

/-- Scan forward for the closing `$` of a lazy `\$.*?\$` attempt: succeed at
the first `$`, fail if a character `.` cannot match (a line terminator)
arrives first or the input ends. -/
def takeToDollar : List Char → Option (List Char × List Char)
  | [] => none
  | c :: cs =>
    if c == '$' then some ([], cs)
    else if isLineTerm c then none
    else
      match takeToDollar cs with
      | some (mid, rest) => some (c :: mid, rest)
      | none => none

/-- Leftmost match of `\$.*?\$`: returns `(prefixText, match, rest)`. -/
def findDollarMatch : List Char → Option (List Char × List Char × List Char)
  | [] => none
  | c :: cs =>
    if c == '$' then
      match takeToDollar cs with
      | some (mid, rest) => some ([], '$' :: (mid ++ ['$']), rest)
      | none =>
        match findDollarMatch cs with
        | some (p, m, r) => some (c :: p, m, r)
        | none => none
    else
      match findDollarMatch cs with
      | some (p, m, r) => some (c :: p, m, r)
      | none => none

/-- Fueled worker for `line.split(/(\$.*?\$)/g)`.  Every match consumes at
least two characters, so fuel `s.length` never runs out. -/
def splitDollarSpansAux : Nat → List Char → List (List Char)
  | 0, s => [s]
  | fuel + 1, s =>
    match findDollarMatch s with
    | none => [s]
    | some (p, m, rest) => p :: m :: splitDollarSpansAux fuel rest

/-- `line.split(/(\$.*?\$)/g)` (App.tsx line 117): alternating unmatched text
and captured `$...$` spans, in order. -/
def splitDollarSpans (s : List Char) : List (List Char) :=
  splitDollarSpansAux s.length s

/-- One part of the split, rendered under a typesetting oracle `kat` that may
throw (`Except.error`) — the `try`/`catch` of App.tsx lines 121-126: a thrown
typesetting error is caught and the raw `$...$` span re-emitted, flagged. -/
def renderPartE (kat : List Char → Except (List Char) (List Char))
    (part : List Char) : Except (List Char) Fragment :=
  if isMathSpan part then
    match kat ((part.drop 1).dropLast) with
    | Except.ok html => Except.ok (Fragment.math ((part.drop 1).dropLast) html)
    | Except.error _ => Except.ok (Fragment.flagged part)
  else Except.ok (Fragment.plain part)

/-- The pure value each part renders to (the success value of `renderPartE`). -/
def renderPart (kat : List Char → Except (List Char) (List Char))
    (part : List Char) : Fragment :=
  if isMathSpan part then
    match kat ((part.drop 1).dropLast) with
    | Except.ok html => Fragment.math ((part.drop 1).dropLast) html
    | Except.error _ => Fragment.flagged part
  else Fragment.plain part

/-- `parts.map(...)` where each callback may throw: a throw would propagate
out of the map, so the map is sequenced in `Except`. -/
def mapPartsE (kat : List Char → Except (List Char) (List Char)) :
    List (List Char) → Except (List Char) (List Fragment)
  | [] => Except.ok []
  | p :: ps =>
    match renderPartE kat p with
    | Except.ok f =>
      match mapPartsE kat ps with
      | Except.ok fs => Except.ok (f :: fs)
      | Except.error e => Except.error e
    | Except.error e => Except.error e

/-- `renderTextWithMath` (App.tsx lines 115-130).  `if (!line) return null;`
renders nothing for the empty line; otherwise the line is split on `$...$`
spans and each part rendered. -/
def renderTextWithMath (kat : List Char → Except (List Char) (List Char)) :
    List Char → Except (List Char) (List Fragment)
  | [] => Except.ok []
  | line => mapPartsE kat (splitDollarSpans line)

/-- The fragment list `renderTextWithMath` succeeds with. -/
def renderFragments (kat : List Char → Except (List Char) (List Char)) :
    List Char → List Fragment
  | [] => []
  | line => (splitDollarSpans line).map (renderPart kat)

/-- The math sources of the math fragments of an output, in order. -/
def mathSources : List Fragment → List (List Char)
  | [] => []
  | Fragment.math src _ :: fs => src :: mathSources fs
  | _ :: fs => mathSources fs

/-- A typesetting oracle that throws on every input. -/
def katFail : List Char → Except (List Char) (List Char) :=
  fun _ => Except.error []

/-- A typesetting oracle that succeeds on every input, echoing the source. -/
def katEcho : List Char → Except (List Char) (List Char) :=
  fun s => Except.ok s

/-- `needle` occurs at the start of `hay` (JS `startsWith`). -/
def seqStartsAt : List Char → List Char → Bool
  | [], _ => true
  | _ :: _, [] => false
  | a :: as, b :: bs => a == b && seqStartsAt as bs

/-- `hay.includes(needle)` for strings: `needle` occurs contiguously in `hay`. -/
def containsSeq (needle : List Char) : List Char → Bool
  | [] => seqStartsAt needle []
  | c :: rest => seqStartsAt needle (c :: rest) || containsSeq needle rest

/-- The style classes assigned to a text block (App.tsx lines 166-176). -/
inductive LineStyle
  | answer
  | header
  | plain
deriving DecidableEq

/-- The stylist (App.tsx lines 166-172): `isAnswer = line.includes('FINAL ANSWER:')`,
`isHeader = line.includes('GIVEN:') || line.includes('STEPS:') || line.startsWith('Part')`,
and the class applied is answer-over-header-over-plain. -/
def classifyLine (line : List Char) : LineStyle :=
  if containsSeq (chars "FINAL ANSWER:") line then LineStyle.answer
  else if containsSeq (chars "GIVEN:") line || containsSeq (chars "STEPS:") line ||
      seqStartsAt (chars "Part") line then LineStyle.header
  else LineStyle.plain

/-- A quiz question (`QuizQuestion` in the types module). -/
structure QuizQuestion where
  question : List Char
  options : List (List Char)
  correctAnswer : Nat
  explanation : List Char
deriving DecidableEq

/-- A quiz (`Quiz` in the types module). -/
structure Quiz where
  id : List Char
  topic : List Char
  level : Nat
  questions : List QuizQuestion
deriving DecidableEq

/-- The view modes of the app (App.tsx line 183). -/
inductive ViewMode
  | chat
  | quizzes
  | stats
  | saved
deriving DecidableEq

/-- The application state touched by `startQuiz` (App.tsx lines 371-386). -/
structure AppQuizState where
  isThinking : Bool
  selectedTopic : Option (List Char)
  isQuizComplete : Bool
  activeQuiz : Option Quiz
  quizAnswers : List (Option Nat)
  currentQuestionIndex : Nat
  viewMode : ViewMode
deriving DecidableEq

/-- `startQuiz` (App.tsx lines 371-386), with `generateQuiz`'s outcome as an
`Except` oracle.  Returns the new state and whether the blocking failure
alert was shown.  On success: quiz installed, answers reset to ten `null`s,
question index 0, view switched to quizzes.  On error: only the alert, with
`isThinking` cleared by the `finally`. -/
def startQuiz (gen : Except (List Char) Quiz) (topic : List Char)
    (st : AppQuizState) : AppQuizState × Bool :=
  let st1 := { st with isThinking := true, selectedTopic := some topic,
                       isQuizComplete := false }
  match gen with
  | Except.ok quiz =>
    ({ st1 with activeQuiz := some quiz,
                quizAnswers := List.replicate 10 none,
                currentQuestionIndex := 0,
                viewMode := ViewMode.quizzes,
                isThinking := false }, false)
  | Except.error _ => ({ st1 with isThinking := false }, true)

/-- Sample quiz for concrete instantiations. -/
def sampleQuiz : Quiz :=
  { id := chars "q1", topic := chars "Game Theory", level := 2, questions := [] }

/-- Sample application state for concrete instantiations. -/
def sampleAppState : AppQuizState :=
  { isThinking := false, selectedTopic := none, isQuizComplete := true,
    activeQuiz := some sampleQuiz, quizAnswers := [some 1, none],
    currentQuestionIndex := 3, viewMode := ViewMode.stats }

/-! ## Lemmas and claim theorems -/

theorem blocksData_append (a b : List Block) :
    blocksData (a ++ b) = blocksData a ++ blocksData b := by
  induction a with
  | nil => simp [blocksData]
  | cons x xs ih => simp [blocksData, ih]

theorem segStep_data (st : List Block × List (List (List Char))) (line : List Char) :
    blocksData (segStep st line).1 ++ ((segStep st line).2).map LineData.rowLine
      = blocksData st.1 ++ st.2.map LineData.rowLine ++ (lineData line).toList := by
  unfold segStep lineData
  by_cases h1 : isTableRow line
  · by_cases h2 : isSeparatorRow line
    · simp [h1, h2]
    · by_cases h3 : (rowCells line).length > 0
      · simp [h1, h2, h3]
      · simp [h1, h2, h3]
  · by_cases h4 : jsTrim line = []
    · by_cases h5 : st.2.length > 0
      · simp [h1, h4, h5, blocksData_append, blocksData, blockData]
      · have h6 : st.2 = [] := List.length_eq_zero.mp (by omega)
        simp [h1, h4, h5, h6]
    · by_cases h5 : st.2.length > 0
      · simp [h1, h4, h5, blocksData_append, blocksData, blockData]
      · have h6 : st.2 = [] := List.length_eq_zero.mp (by omega)
        simp [h1, h4, h5, h6, blocksData_append, blocksData, blockData]

theorem segFold_data :
    ∀ (lines : List (List Char)) (st : List Block × List (List (List Char))),
      blocksData (lines.foldl segStep st).1
          ++ ((lines.foldl segStep st).2).map LineData.rowLine
        = blocksData st.1 ++ st.2.map LineData.rowLine ++ lines.filterMap lineData := by
  intro lines
  induction lines with
  | nil => intro st; simp
  | cons line rest ih =>
    intro st
    rw [List.foldl_cons, ih (segStep st line), segStep_data]
    cases h : lineData line with
    | none => simp [List.filterMap_cons, h]
    | some d => simp [List.filterMap_cons, h]

theorem blocksData_flushTable (st : List Block × List (List (List Char))) :
    blocksData (flushTable st) = blocksData st.1 ++ st.2.map LineData.rowLine := by
  unfold flushTable
  by_cases h : st.2.length > 0
  · simp [h, blocksData_append, blocksData, blockData]
  · have h6 : st.2 = [] := List.length_eq_zero.mp (by omega)
    simp [h, h6]

theorem splitOnChar_ne_nil (sep : Char) : ∀ l : List Char, splitOnChar sep l ≠ [] := by
  intro l
  induction l with
  | nil => simp [splitOnChar]
  | cons c cs ih =>
    unfold splitOnChar
    cases h : splitOnChar sep cs with
    | nil => exact absurd h ih
    | cons r rs =>
      by_cases hc : (c == sep) = true
      · simp [hc]
      · simp [hc]

theorem splitOnChar_length (sep : Char) : ∀ l : List Char,
    (splitOnChar sep l).length = l.count sep + 1 := by
  intro l
  induction l with
  | nil => simp [splitOnChar]
  | cons c cs ih =>
    unfold splitOnChar
    cases h : splitOnChar sep cs with
    | nil => exact absurd h (splitOnChar_ne_nil sep cs)
    | cons r rs =>
      rw [h] at ih
      by_cases hc : (c == sep) = true
      · have hceq : c = sep := by simpa using hc
        simp only [hc, if_true, List.length_cons, List.count_cons, hceq]
        simp only [List.length_cons] at ih
        simp [ih]
      · have hcne : ¬ (c = sep) := by simpa using hc
        simp only [hc, if_false, List.length_cons, List.count_cons, hcne]
        simp only [List.length_cons] at ih
        simp [ih]

theorem jsTrim_sublist (l : List Char) : (jsTrim l).Sublist l := by
  unfold jsTrim
  have s1 : ((l.dropWhile isJsWs).reverse.dropWhile isJsWs).Sublist
      (l.dropWhile isJsWs).reverse := List.dropWhile_sublist isJsWs
  have s2 := s1.reverse
  rw [List.reverse_reverse] at s2
  exact s2.trans (List.dropWhile_sublist isJsWs)

theorem endCheck_pipe_mem : ∀ t : List Char, endCheck t = true → '|' ∈ t := by
  intro t
  induction t with
  | nil => intro h; exact absurd h (by decide)
  | cons c cs ih =>
    cases cs with
    | nil =>
      intro h
      have hc : c = '|' := by simpa [endCheck] using h
      rw [hc]
      exact List.mem_cons_self _ _
    | cons c2 cs2 =>
      intro h
      rw [show endCheck (c :: c2 :: cs2) = ((!(isLineTerm c)) && endCheck (c2 :: cs2)) from rfl,
        Bool.and_eq_true] at h
      exact List.mem_cons_of_mem _ (ih h.2)

theorem count_pipes_line (line : List Char) (hregex : pipeRowRegexTest line = true) :
    2 ≤ line.count '|' := by
  have h1 : 2 ≤ (jsTrim line).count '|' := by
    unfold pipeRowRegexTest at hregex
    split at hregex
    next rest heq =>
      have hmem := endCheck_pipe_mem rest hregex
      rw [heq, List.count_cons_self]
      have hpos := List.count_pos_iff.mpr hmem
      omega
    next => exact absurd hregex (by decide)
  have h2 := (jsTrim_sublist line).count_le '|'
  omega

theorem rowCells_pos (line : List Char) (hregex : pipeRowRegexTest line = true) :
    0 < (rowCells line).length := by
  unfold rowCells
  rw [List.length_map, List.length_dropLast, List.length_drop]
  have hs := splitOnChar_length '|' line
  have hc := count_pipes_line line hregex
  omega

theorem lineData_eq (line : List Char) :
    lineData line =
      (if isTableRow line then
        (if isSeparatorRow line then none
         else some (LineData.rowLine (rowCells line)))
       else if jsTrim line = [] then none else some (LineData.textLine line)) := by
  unfold lineData
  by_cases h1 : isTableRow line = true
  · by_cases h2 : isSeparatorRow line = true
    · simp [h1, h2]
    · have hregex : pipeRowRegexTest line = true := by
        unfold isTableRow at h1
        rw [Bool.and_eq_true] at h1
        exact h1.1
      have hpos := rowCells_pos line hregex
      simp [h1, h2, hpos]
  · simp [h1]

/-- C1: Segmentation is lossless: for every input text, concatenating in
source order the contents of the `text` blocks and the row cells of the
`table` blocks yields exactly the per-line data of the lines, where a line
contributes nothing exactly when it is blank or a separator row (a matched
table row always yields at least one cell, so no other line is discarded),
a non-blank text line contributes itself, and a table row its trimmed
cells. -/
theorem C1_segmentation_lossless (text : List Char) :
    blocksData (segmentBlocks text) = (splitOnChar '\n' text).filterMap lineData ∧
    ∀ line : List Char,
      lineData line =
        (if isTableRow line then
          (if isSeparatorRow line then none
           else some (LineData.rowLine (rowCells line)))
         else if jsTrim line = [] then none else some (LineData.textLine line)) := by
  constructor
  · unfold segmentBlocks
    rw [blocksData_flushTable, segFold_data]
    simp [blocksData]
  · exact lineData_eq

theorem mem_of_mem_dropWhile (p : Char → Bool) (l : List Char) (a : Char)
    (h : a ∈ l.dropWhile p) : a ∈ l := by
  induction l with
  | nil => exact h
  | cons c cs ih =>
    rw [List.dropWhile_cons] at h
    by_cases hp : p c
    · simp only [hp, if_true] at h
      exact List.mem_cons_of_mem _ (ih h)
    · simp only [hp, if_false] at h
      exact h

theorem mem_of_mem_jsTrim (l : List Char) (a : Char) (h : a ∈ jsTrim l) : a ∈ l := by
  unfold jsTrim at h
  rw [List.mem_reverse] at h
  have h2 := mem_of_mem_dropWhile _ _ _ h
  rw [List.mem_reverse] at h2
  exact mem_of_mem_dropWhile _ _ _ h2

theorem endCheck_eq (t : List Char) :
    endCheck t = ((t.getLast? == some '|') && t.dropLast.all (fun c => !(isLineTerm c))) := by
  induction t with
  | nil => rfl
  | cons c cs ih =>
    cases cs with
    | nil => simp [endCheck]
    | cons c2 cs2 =>
      rw [show endCheck (c :: c2 :: cs2) = ((!(isLineTerm c)) && endCheck (c2 :: cs2)) from rfl]
      rw [ih]
      rw [List.getLast?_cons_cons]
      rw [show (c :: c2 :: cs2).dropLast = c :: (c2 :: cs2).dropLast from rfl]
      rw [List.all_cons]
      rw [Bool.and_comm (!(isLineTerm c)), Bool.and_assoc]
      rw [Bool.and_comm (!(isLineTerm c))]

theorem pipeRowRegexTest_eq (line : List Char) :
    pipeRowRegexTest line
      = (((jsTrim line).head? == some '|') && ((jsTrim line).getLast? == some '|') &&
         (2 ≤ (jsTrim line).length) &&
         (((jsTrim line).drop 1).dropLast).all (fun c => !(isLineTerm c))) := by
  unfold pipeRowRegexTest
  split
  next rest heq =>
    rw [heq, endCheck_eq]
    cases rest with
    | nil => simp
    | cons d ds => simp [List.getLast?_cons_cons]
  next t heq =>
    cases ht : jsTrim line with
    | nil => simp
    | cons c rest =>
      have hc : ¬ (c = '|') := by
        intro hcc
        subst hcc
        exact heq rest ht
      simp [hc]

theorem pipe_mem_of_head (line : List Char)
    (hh : (jsTrim line).head? = some '|') : containsChar '|' line = true := by
  have h1 : '|' ∈ jsTrim line := by
    cases ht : jsTrim line with
    | nil => rw [ht] at hh; simp at hh
    | cons c rest =>
      rw [ht] at hh
      simp at hh
      rw [hh]
      exact List.mem_cons_self _ _
  have h2 := mem_of_mem_jsTrim _ _ h1
  unfold containsChar
  rw [List.any_eq_true]
  exact ⟨'|', h2, by simp⟩

/-- C2 (amended): a line is treated as a table row exactly when, after
trimming surrounding whitespace, it begins with a pipe and ends with a
distinct second pipe with no line-terminator characters between the two
pipes — no interior pipe is required; any line failing this test is handled
as text (closing any open table; emitted as a `text` block iff non-blank). -/
theorem C2_table_row_detection :
    ∀ line : List Char,
      isTableRow line = amendedRowShape line ∧
      (isTableRow line = false →
        segStep ([], []) line =
          (if jsTrim line = [] then (([] : List Block), ([] : List (List (List Char))))
           else ([Block.text line], ([] : List (List (List Char)))))) := by
  intro line
  constructor
  · unfold isTableRow amendedRowShape
    rw [pipeRowRegexTest_eq]
    by_cases hh : (jsTrim line).head? = some '|'
    · rw [pipe_mem_of_head line hh, Bool.and_true]
    · have hf : ((jsTrim line).head? == some '|') = false := by
        simp [hh]
      simp [hf]
  · intro hfalse
    unfold segStep
    simp only [hfalse, Bool.false_eq_true, if_false]
    simp

/-- C2 counterexample: the line `"|x|"` begins and ends with a pipe
(ignoring surrounding whitespace) but contains no interior pipe, so under
the frozen claim it would be handled as text; the code classifies it as a
table row and emits a one-cell table block. -/
theorem C2_counterexample :
    beginsEndsPipe ['|', 'x', '|'] = true ∧
    hasInteriorPipe ['|', 'x', '|'] = false ∧
    isTableRow ['|', 'x', '|'] = true ∧
    segmentBlocks ['|', 'x', '|'] = [Block.table [[['x']]]] :=
  ⟨by decide, by decide, by decide, by decide⟩

/-- C2 witness: the non-row line `"abc"` is handled as a text block. -/
theorem C2_witness :
    isTableRow (chars "abc") = false ∧
    segStep ([], []) (chars "abc")
      = ([Block.text (chars "abc")], ([] : List (List (List Char)))) := by
  refine ⟨by decide, ?_⟩
  have h := (C2_table_row_detection (chars "abc")).2 (by decide)
  exact h.trans (by decide)

theorem head_pipe_of_regex (line : List Char) (hregex : pipeRowRegexTest line = true) :
    (jsTrim line).head? = some '|' := by
  rw [pipeRowRegexTest_eq] at hregex
  simp only [Bool.and_eq_true, beq_iff_eq] at hregex
  exact hregex.1.1.1

/-- C3 (amended): a line matching `^\s*\|.*\|\s*$` and composed solely of
pipes, dashes, colons and whitespace, with every whitespace character
between the outer pipes being a plain space, is discarded by the segmenter:
the per-line step leaves the state unchanged, so the line contributes no
cell, is never emitted as a text block, and neither closes nor opens an
in-progress table. -/
theorem C3_separator_discarded (line : List Char)
    (st : List Block × List (List (List Char)))
    (hregex : pipeRowRegexTest line = true)
    (_hws : line.all isSepOrWsChar = true)
    (hclass : (jsTrim line).all isSepClassChar = true) :
    segStep st line = st := by
  have hh := head_pipe_of_regex line hregex
  have htr : isTableRow line = true := by
    unfold isTableRow
    rw [hregex, pipe_mem_of_head line hh, Bool.and_self]
  have hne : (jsTrim line).isEmpty = false := by
    cases ht : jsTrim line with
    | nil => rw [ht] at hh; simp at hh
    | cons c rest => rfl
  have hsep : isSeparatorRow line = true := by
    unfold isSeparatorRow
    rw [hne, hclass]
    rfl
  unfold segStep
  simp [htr, hsep]

/-- C3 counterexample: `"|-\t-|"` matches the row regex and consists solely
of pipes, dashes and whitespace (a tab), yet the segmenter does not discard
it — it contributes the cell `"-\t-"` to a table block, because the code's
separator class `[| \-:]` admits only a plain space, not every whitespace
character. -/
theorem C3_counterexample :
    pipeRowRegexTest ['|', '-', '\t', '-', '|'] = true ∧
    ['|', '-', '\t', '-', '|'].all isSepOrWsChar = true ∧
    segmentBlocks ['|', '-', '\t', '-', '|'] = [Block.table [[['-', '\t', '-']]]] :=
  ⟨by decide, by decide, by decide⟩

/-- C3 witness: the all-space separator row `"|---|:--:|"` is discarded. -/
theorem C3_witness :
    pipeRowRegexTest (chars "|---|:--:|") = true ∧
    (chars "|---|:--:|").all isSepOrWsChar = true ∧
    (jsTrim (chars "|---|:--:|")).all isSepClassChar = true ∧
    segStep ([Block.text (chars "x")], [[chars "a"]]) (chars "|---|:--:|")
      = ([Block.text (chars "x")], [[chars "a"]]) :=
  ⟨by decide, by decide, by decide,
    C3_separator_discarded _ _ (by decide) (by decide) (by decide)⟩

theorem revealTicks_min (blocks : List Block) :
    ∀ (k v : Nat), v ≤ blocks.length →
      revealTicks blocks k v = min (v + k) blocks.length := by
  intro k
  induction k with
  | zero =>
    intro v hv
    rw [revealTicks]
    omega
  | succ k ih =>
    intro v hv
    rw [revealTicks]
    unfold revealTick
    by_cases h : v < blocks.length
    · rw [if_pos h, ih (v + 1) h]
      omega
    · rw [if_neg h, ih v hv]
      omega

/-- C4: starting from 0, after `k` ticks the visible count is
`min k (length blocks)` — so after exactly `N = length blocks` ticks it is
`N` and additional ticks change nothing — and in the terminal state no
further timer is scheduled and a tick is the identity. -/
theorem C4_revealer_terminal (blocks : List Block) (k : Nat) :
    revealTicks blocks k 0 = min k blocks.length ∧
    revealTick blocks blocks.length = blocks.length ∧
    timerScheduled blocks blocks.length = false := by
  refine ⟨?_, ?_, ?_⟩
  · have h := revealTicks_min blocks k 0 (Nat.zero_le _)
    simpa using h
  · unfold revealTick
    simp
  · unfold timerScheduled
    simp

theorem applyRevealOp_inv (st : RevealState) (op : RevealOp)
    (h : revealInv st) : revealInv (applyRevealOp st op) := by
  cases op with
  | rebuild t =>
    unfold applyRevealOp revealInv
    simp
  | tick =>
    unfold applyRevealOp revealInv revealTick
    unfold revealInv at h
    by_cases hlt : st.visibleCount < st.blocks.length
    · simp only [hlt, if_true]
      omega
    · simp only [hlt, if_false]
      exact h

theorem foldl_reveal_inv :
    ∀ (ops : List RevealOp) (st : RevealState), revealInv st →
      revealInv (ops.foldl applyRevealOp st) := by
  intro ops
  induction ops with
  | nil => intro st h; exact h
  | cons op rest ih =>
    intro st h
    exact ih _ (applyRevealOp_inv st op h)

/-- C5: after any sequence of reveal-state operations (rebuilds from source
text and reveal ticks) from the mount state, `0 ≤ visibleCount ≤ length blocks`
holds, and every rebuild from (new) source text resets `visibleCount` to 0. -/
theorem C5_reveal_invariant :
    (∀ ops : List RevealOp, revealInv (ops.foldl applyRevealOp mountRevealState)) ∧
    (∀ (st : RevealState) (t : List Char),
      (applyRevealOp st (RevealOp.rebuild t)).visibleCount = 0) := by
  constructor
  · intro ops
    exact foldl_reveal_inv ops mountRevealState (Nat.le_refl 0)
  · intro st t
    rfl

theorem renderPartE_ok (kat : List Char → Except (List Char) (List Char))
    (part : List Char) : renderPartE kat part = Except.ok (renderPart kat part) := by
  unfold renderPartE renderPart
  by_cases h : isMathSpan part
  · simp only [h, if_true]
    cases kat ((part.drop 1).dropLast) <;> rfl
  · simp only [h, if_false]
    rfl

theorem mapPartsE_ok (kat : List Char → Except (List Char) (List Char)) :
    ∀ parts : List (List Char),
      mapPartsE kat parts = Except.ok (parts.map (renderPart kat)) := by
  intro parts
  induction parts with
  | nil => rfl
  | cons p ps ih =>
    rw [show mapPartsE kat (p :: ps)
        = (match renderPartE kat p with
           | Except.ok f =>
             match mapPartsE kat ps with
             | Except.ok fs => Except.ok (f :: fs)
             | Except.error e => Except.error e
           | Except.error e => Except.error e) from rfl]
    rw [renderPartE_ok, ih]
    rfl

/-- C6: the math fragment renderer never raises: for every typesetting oracle
(including ones that throw) and every line it returns `Except.ok` with the
rendered fragment list, and whenever the oracle throws on a `$...$` span the
part degrades to the visually flagged raw span instead of propagating. -/
theorem C6_renderer_never_raises (kat : List Char → Except (List Char) (List Char)) :
    (∀ line : List Char,
      renderTextWithMath kat line = Except.ok (renderFragments kat line)) ∧
    (∀ (part e : List Char), isMathSpan part = true →
      kat ((part.drop 1).dropLast) = Except.error e →
      renderPartE kat part = Except.ok (Fragment.flagged part)) := by
  constructor
  · intro line
    cases line with
    | nil => rfl
    | cons c cs =>
      rw [show renderTextWithMath kat (c :: cs)
          = mapPartsE kat (splitDollarSpans (c :: cs)) from rfl]
      rw [show renderFragments kat (c :: cs)
          = (splitDollarSpans (c :: cs)).map (renderPart kat) from rfl]
      exact mapPartsE_ok kat _
  · intro part e hspan hthrow
    unfold renderPartE
    rw [if_pos hspan, hthrow]

/-- C6 witness: under an oracle that always throws, the span `"$x$"`
degrades to the flagged raw span. -/
theorem C6_witness :
    renderPartE katFail ['$', 'x', '$'] = Except.ok (Fragment.flagged ['$', 'x', '$']) :=
  (C6_renderer_never_raises katFail).2 ['$', 'x', '$'] [] (by decide) rfl

theorem findDollarMatch_none :
    ∀ l : List Char, containsChar '$' l = false → findDollarMatch l = none := by
  intro l
  induction l with
  | nil => intro _; rfl
  | cons c cs ih =>
    intro h
    unfold containsChar at h
    rw [List.any_cons, Bool.or_eq_false_iff] at h
    unfold findDollarMatch
    simp only [h.1, Bool.false_eq_true, if_false]
    rw [ih h.2]

theorem splitDollarSpans_no_dollar (c : Char) (cs : List Char)
    (h : containsChar '$' (c :: cs) = false) :
    splitDollarSpans (c :: cs) = [c :: cs] := by
  unfold splitDollarSpans
  rw [show (c :: cs).length = cs.length + 1 from rfl]
  rw [show splitDollarSpansAux (cs.length + 1) (c :: cs)
      = (match findDollarMatch (c :: cs) with
         | none => [c :: cs]
         | some (p, m, rest) => p :: m :: splitDollarSpansAux cs.length rest) from rfl]
  rw [findDollarMatch_none _ h]

/-- C7 (amended): for every non-empty line containing no `$` character the
renderer produces a single plain fragment equal to the input (the empty line
short-circuits to no output at all), and the line `"$x^2$"` produces exactly
one math fragment, whose source is `x^2`. -/
theorem C7_plain_passthrough (kat : List Char → Except (List Char) (List Char)) :
    (∀ line : List Char, line ≠ [] → containsChar '$' line = false →
      renderTextWithMath kat line = Except.ok [Fragment.plain line]) ∧
    (∀ h : List Char, kat (chars "x^2") = Except.ok h →
      ∃ out, renderTextWithMath kat (chars "$x^2$") = Except.ok out ∧
        mathSources out = [chars "x^2"]) := by
  constructor
  · intro line hne hnd
    cases line with
    | nil => exact absurd rfl hne
    | cons c cs =>
      rw [show renderTextWithMath kat (c :: cs)
          = mapPartsE kat (splitDollarSpans (c :: cs)) from rfl]
      rw [splitDollarSpans_no_dollar c cs hnd]
      rw [mapPartsE_ok, List.map_cons, List.map_nil]
      have hplain : renderPart kat (c :: cs) = Fragment.plain (c :: cs) := by
        unfold renderPart
        rw [if_neg ?hc]
        case hc =>
          intro habs
          unfold isMathSpan at habs
          rw [Bool.and_eq_true] at habs
          have h1 := habs.1
          simp only [List.head?_cons, beq_iff_eq, Option.some.injEq] at h1
          unfold containsChar at hnd
          rw [List.any_cons, Bool.or_eq_false_iff] at hnd
          simp [h1] at hnd
      rw [hplain]
  · intro h hk
    refine ⟨[Fragment.plain [], Fragment.math (chars "x^2") h, Fragment.plain []], ?_, rfl⟩
    have hm : renderPart kat (chars "$x^2$") = Fragment.math (chars "x^2") h := by
      unfold renderPart
      rw [if_pos (by decide : isMathSpan (chars "$x^2$") = true)]
      rw [show ((chars "$x^2$").drop 1).dropLast = chars "x^2" from by decide]
      rw [hk]
    rw [show renderTextWithMath kat (chars "$x^2$")
        = mapPartsE kat (splitDollarSpans (chars "$x^2$")) from rfl]
    rw [show splitDollarSpans (chars "$x^2$") = [[], chars "$x^2$", []] from by decide]
    rw [mapPartsE_ok, List.map_cons, List.map_cons, List.map_cons, List.map_nil]
    rw [hm]
    rfl

/-- C7 counterexample: the empty line contains no `$`, yet the renderer's
`if (!line) return null;` guard renders nothing rather than producing a
single plain fragment equal to the input. -/
theorem C7_counterexample :
    containsChar '$' ([] : List Char) = false ∧
    renderTextWithMath katEcho [] = Except.ok [] ∧
    (Except.ok ([] : List Fragment) : Except (List Char) (List Fragment))
      ≠ Except.ok [Fragment.plain []] :=
  ⟨by decide, rfl, by intro h; simp at h⟩

/-- C7 witness: a concrete non-empty `$`-free line passes through as one
plain fragment, and `"$x^2$"` yields exactly one math fragment with source
`x^2`. -/
theorem C7_witness :
    renderTextWithMath katEcho ['a'] = Except.ok [Fragment.plain ['a']] ∧
    (∃ out, renderTextWithMath katEcho (chars "$x^2$") = Except.ok out ∧
      mathSources out = [chars "x^2"]) :=
  ⟨(C7_plain_passthrough katEcho).1 ['a'] (by decide) (by decide),
   (C7_plain_passthrough katEcho).2 (chars "x^2") rfl⟩

/-- C8: the stylist classifies a text block `answer` iff it contains
`"FINAL ANSWER:"`; otherwise `header` iff it contains `"GIVEN:"` or
`"STEPS:"` or starts with `"Part"`; otherwise `plain`.  In particular
`"FINAL ANSWER: 42"` is `answer`, `"STEPS:"` and `"Part A"` are `header`,
and `"The result is 5"` is `plain`. -/
theorem C8_stylist_classification :
    ∀ line : List Char,
      ((classifyLine line = LineStyle.answer ↔
         containsSeq (chars "FINAL ANSWER:") line = true) ∧
       (classifyLine line = LineStyle.header ↔
         (containsSeq (chars "FINAL ANSWER:") line = false ∧
          (containsSeq (chars "GIVEN:") line || containsSeq (chars "STEPS:") line ||
           seqStartsAt (chars "Part") line) = true)) ∧
       (classifyLine line = LineStyle.plain ↔
         (containsSeq (chars "FINAL ANSWER:") line = false ∧
          (containsSeq (chars "GIVEN:") line || containsSeq (chars "STEPS:") line ||
           seqStartsAt (chars "Part") line) = false))) ∧
      classifyLine (chars "FINAL ANSWER: 42") = LineStyle.answer ∧
      classifyLine (chars "STEPS:") = LineStyle.header ∧
      classifyLine (chars "Part A") = LineStyle.header ∧
      classifyLine (chars "The result is 5") = LineStyle.plain := by
  intro line
  refine ⟨?_, by decide, by decide, by decide, by decide⟩
  cases h1 : containsSeq (chars "FINAL ANSWER:") line with
  | true => refine ⟨?_, ?_, ?_⟩ <;> simp [classifyLine, h1]
  | false =>
    cases h2 : (containsSeq (chars "GIVEN:") line || containsSeq (chars "STEPS:") line ||
        seqStartsAt (chars "Part") line) with
    | true => refine ⟨?_, ?_, ?_⟩ <;> simp [classifyLine, h1, h2]
    | false => refine ⟨?_, ?_, ?_⟩ <;> simp [classifyLine, h1, h2]

/-- C9: when quiz generation raises, `startQuiz` surfaces the blocking
failure alert and does not enter a quiz state: the quiz-related state
observed by the quiz view — active quiz, current question index, answers,
view mode — is unchanged from before the call. -/
theorem C9_quiz_failure_atomic (gen : Except (List Char) Quiz) (topic : List Char)
    (st : AppQuizState) (e : List Char) (hgen : gen = Except.error e) :
    (startQuiz gen topic st).2 = true ∧
    (startQuiz gen topic st).1.activeQuiz = st.activeQuiz ∧
    (startQuiz gen topic st).1.currentQuestionIndex = st.currentQuestionIndex ∧
    (startQuiz gen topic st).1.quizAnswers = st.quizAnswers ∧
    (startQuiz gen topic st).1.viewMode = st.viewMode := by
  subst hgen
  exact ⟨rfl, rfl, rfl, rfl, rfl⟩

/-- C9 witness: a failing generation oracle on a concrete state shows the
alert and leaves the quiz-view state fields untouched. -/
theorem C9_witness :
    (startQuiz (Except.error (chars "boom")) (chars "Calculus") sampleAppState).2 = true ∧
    (startQuiz (Except.error (chars "boom")) (chars "Calculus") sampleAppState).1.activeQuiz
      = some sampleQuiz ∧
    (startQuiz (Except.error (chars "boom")) (chars "Calculus") sampleAppState).1.currentQuestionIndex
      = 3 ∧
    (startQuiz (Except.error (chars "boom")) (chars "Calculus") sampleAppState).1.quizAnswers
      = [some 1, none] ∧
    (startQuiz (Except.error (chars "boom")) (chars "Calculus") sampleAppState).1.viewMode
      = ViewMode.stats := by
  have h := C9_quiz_failure_atomic (Except.error (chars "boom")) (chars "Calculus")
    sampleAppState (chars "boom") rfl
  exact ⟨h.1, h.2.1.trans rfl, h.2.2.1.trans rfl, h.2.2.2.1.trans rfl, h.2.2.2.2.trans rfl⟩
